import Mathlib

/-!
Shallow embedding of the serverless resume parser
(`src/backend/.aws-sam/build/ResumeProcessorFunction/app.py` and
`src/backend/src/api/app.py`).

Modelling conventions:
* Python strings are modelled as `List Char` (ASCII texts; `str.lower`,
  `str.strip`, `str.splitlines` are modelled over `'\n'`-separated ASCII
  text — the only line separator the pipeline produces, since Textract
  lines are joined with `"\n"`).
* Python `float` scores are modelled as exact rationals `ℚ`; `round(x, 3)`
  is modelled as rounding `x * 1000` to the nearest integer.
* Python `set` is modelled as `Finset` (matching engine) or as a
  duplicate-free list (parser); `sorted(list(s))` is modelled as
  `List.insertionSort (· ≤ ·)` on the duplicate-free list, with `≤` the
  lexicographic order on character values (as in Python).
-/

namespace ResumeParser

/-- Python strings, modelled as lists of characters. -/
abbrev Str := List Char

/-- Model of `str.lower()` (ASCII). -/
def toLowerStr (s : Str) : Str := s.map Char.toLower

/-- Model of `str.splitlines()`: splitting at `'\n'`.
(The model keeps a trailing empty line for text ending in `'\n'` and
yields `[[]]` on empty text; every consumer below filters blank lines or
matches keywords, so this difference is unobservable downstream.) -/
def splitLines : Str → List Str
  | [] => [[]]
  | c :: cs =>
    if c = '\n' then [] :: splitLines cs
    else
      match splitLines cs with
      | [] => [[c]]
      | l :: ls => (c :: l) :: ls

/-- Model of `str.strip()`: remove leading and trailing whitespace. -/
def trim (s : Str) : Str :=
  ((s.dropWhile Char.isWhitespace).reverse.dropWhile Char.isWhitespace).reverse

/-- Source set `SKILL_KEYWORDS` of the processor module (app.py lines 22–50).
The Python value is an (unordered) `set`; it is modelled as the list of its
distinct elements in source order. -/
def SKILL_KEYWORDS : List Str :=
  ["python", "java", "javascript", "typescript", "react", "node", "node.js",
   "aws", "lambda", "dynamodb", "s3", "kubernetes", "docker", "sql", "nosql",
   "postgres", "mysql", "mongodb", "terraform", "jenkins", "git", "rest",
   "api", "machine learning", "data science", "pandas",
   "numpy"].map String.toList

/-- Python's substring test `pat in hay`. -/
def containsSub (hay pat : Str) : Bool :=
  (List.range (hay.length + 1)).any fun i => pat.isPrefixOf (hay.drop i)

/-- Source function `extract_skills` (app.py lines 159–164): the set of vocabulary terms
occurring as substrings of the lowercased text.  The Python function
returns a `set`; it is modelled as a duplicate-free list (the entries of
`SKILL_KEYWORDS` are distinct, so the filtered list has no duplicates). -/
def extract_skills (lower_text : Str) : List Str :=
  SKILL_KEYWORDS.filter fun skill => containsSub lower_text skill

/-- Source list `title_keywords` (app.py line 169). -/
def title_keywords : List Str :=
  ["engineer", "developer", "manager", "lead", "architect",
   "analyst"].map String.toList

/-- Source function `extract_titles` (app.py lines 167–174): stripped lines of the
lowercased text that contain a title keyword.  The Python function
returns a `set`; it is modelled as the duplicate-free list of first
occurrences (`List.dedup`). -/
def extract_titles (lower_text : Str) : List Str :=
  (((splitLines lower_text).filter fun line =>
      title_keywords.any fun word => containsSub line word).map trim).dedup

/-! ### Email regex `[A-Za-z0-9._%+-]+@[A-Za-z0-9.-]+\.[A-Za-z]{2,}`
(app.py lines 144–146), embedded as a direct matcher with the same
greedy-backtracking semantics as the Python `re` engine. -/

/-- Character class `[A-Za-z0-9._%+-]` (email local part). -/
def localClass (c : Char) : Bool :=
  c.isAlpha || c.isDigit || c == '.' || c == '_' || c == '%' || c == '+' || c == '-'

/-- Character class `[A-Za-z0-9.-]` (email domain). -/
def domainClass (c : Char) : Bool :=
  c.isAlpha || c.isDigit || c == '.' || c == '-'

/-- Match `\.[A-Za-z]{2,}` at the head; returns the matched length. -/
def dotLetters : Str → Option Nat
  | '.' :: r =>
    let ls := r.takeWhile Char.isAlpha
    if 2 ≤ ls.length then some (1 + ls.length) else none
  | _ => none

/-- Match `[A-Za-z0-9.-]*\.[A-Za-z]{2,}` at the head, preferring a longer
domain run first (greedy, with backtracking); returns the matched length. -/
def domTail0 : Str → Option Nat
  | [] => none
  | c :: r =>
    if domainClass c then
      match domTail0 r with
      | some n => some (n + 1)
      | none => dotLetters (c :: r)
    else none

/-- Match `[A-Za-z0-9.-]+\.[A-Za-z]{2,}` at the head. -/
def domPlus : Str → Option Nat
  | [] => none
  | c :: r =>
    if domainClass c then
      match domTail0 r with
      | some n => some (n + 1)
      | none => none
    else none

/-- Attempt the whole email pattern at the head of `cs`; returns the total
matched length. -/
def matchEmailAt (cs : Str) : Option Nat :=
  let loc := cs.takeWhile localClass
  if loc.isEmpty then none
  else
    match cs.drop loc.length with
    | '@' :: r =>
      match domPlus r with
      | some n => some (loc.length + 1 + n)
      | none => none
    | _ => none

/-- Model of `re.search` for the email pattern: try each start position left to
right, return the first (leftmost) match. -/
def emailScan : Str → Option Str
  | [] => none
  | c :: cs =>
    match matchEmailAt (c :: cs) with
    | some n => some ((c :: cs).take n)
    | none => emailScan cs

/-- Source function `extract_email` (app.py lines 144–146): first match of the email regex,
or the empty string. -/
def extract_email (text : Str) : Str := (emailScan text).getD []

/-! ### Experience regex `(\d+(?:\.\d+)?)\s*\+?\s*years?`
(app.py lines 149–156), embedded as a direct matcher. -/

/-- Decimal digits to a natural number. -/
def digitsToNat (ds : Str) : Nat := ds.foldl (fun a c => a * 10 + (c.toNat - 48)) 0

/-- Value of the captured number `ds` with optional fraction `fs`
(where `fs` is `[]` or `'.' :: digits`), as an exact rational
(model of Python `float(m)`). -/
def ratOfNum (ds fs : Str) : ℚ :=
  match fs with
  | '.' :: f => (digitsToNat ds : ℚ) + (digitsToNat f : ℚ) / (10 : ℚ) ^ f.length
  | _ => (digitsToNat ds : ℚ)

/-- Attempt the experience pattern at the head of `cs`; on success return
the captured number's value and the total matched length. -/
def matchYearAt (cs : Str) : Option (ℚ × Nat) :=
  let ds := cs.takeWhile Char.isDigit
  if ds.isEmpty then none
  else
    let r1 := cs.drop ds.length
    let fs :=
      match r1 with
      | '.' :: t =>
        let f := t.takeWhile Char.isDigit
        if f.isEmpty then ([] : Str) else '.' :: f
      | _ => ([] : Str)
    let r2 := r1.drop fs.length
    let w1 := r2.takeWhile Char.isWhitespace
    let r3 := r2.drop w1.length
    let pl := match r3 with | '+' :: _ => 1 | _ => 0
    let r4 := r3.drop pl
    let w2 := r4.takeWhile Char.isWhitespace
    let r5 := r4.drop w2.length
    match r5 with
    | 'y' :: 'e' :: 'a' :: 'r' :: t =>
      let sl := match t with | 's' :: _ => 1 | _ => 0
      some (ratOfNum ds fs,
            ds.length + fs.length + w1.length + pl + w2.length + 4 + sl)
    | _ => none

/-- Model of `re.findall` for the experience pattern: scan left to right, collect
captured numbers of non-overlapping matches, resuming after each match.
`fuel` bounds the recursion (each step consumes at least one character). -/
def yearScanAux : Nat → Str → List ℚ
  | 0, _ => []
  | _ + 1, [] => []
  | fuel + 1, c :: cs =>
    match matchYearAt (c :: cs) with
    | some (q, n) => q :: yearScanAux fuel ((c :: cs).drop n)
    | none => yearScanAux fuel cs

/-- All captured experience numbers of a text, in scan order. -/
def yearMatches (cs : Str) : List ℚ := yearScanAux cs.length cs

/-- Source function `extract_experience_years` (app.py lines 149–156): the maximum matched
number, or `0` when there is no match. -/
def extract_experience_years (lower_text : Str) : ℚ :=
  match yearMatches lower_text with
  | [] => 0
  | q :: qs => qs.foldl max q

/-! ### `parse_candidate_profile` (app.py lines 116–141). -/

/-- The profile record built by `parse_candidate_profile`
(the caller later adds `candidateId`, `sourceObjectKey`, `matches`). -/
structure CandidateProfile where
  name : Str
  email : Str
  total_experience_years : ℚ
  skills : List Str
  titles : List Str
  raw_text : Str
deriving DecidableEq

/-- The stripped non-blank lines of the text
(`[ln.strip() for ln in text.splitlines() if ln.strip()]`, app.py line 125). -/
def nonBlankLines (text : Str) : List Str :=
  ((splitLines text).map trim).filter fun l => !l.isEmpty

/-- Source function `parse_candidate_profile` (app.py lines 116–141). -/
def parse_candidate_profile (text : Str) : CandidateProfile :=
  let lines := nonBlankLines text
  let lower_text := toLowerStr text
  { name := lines.headD "Unknown".toList
    email := extract_email text
    total_experience_years := extract_experience_years lower_text
    skills := (extract_skills lower_text).insertionSort (· ≤ ·)
    titles := (extract_titles lower_text).insertionSort (· ≤ ·)
    raw_text := text.take 5000 }

/-! ### Matching engine (app.py lines 177–216). -/

/-- A job record as read from the job table.  `jobId` is `none` when the
attribute is absent (Python `None`); `required_skills` holds the job's
skill strings (the source drops non-string entries with an `isinstance`
check, which the typed model makes vacuous). -/
structure JobRecord where
  jobId : Option Str
  required_skills : List Str
deriving DecidableEq

/-- Source function `jaccard_similarity` (app.py lines 211–216). -/
def jaccard_similarity (a b : Finset Str) : ℚ :=
  if a = ∅ ∧ b = ∅ then 0
  else
    let i := (a ∩ b).card
    let u := (a ∪ b).card
    if u ≠ 0 then (i : ℚ) / (u : ℚ) else 0

/-- The candidate's lowercased skill set
(`set(s.lower() for s in candidate.get("skills", []))`, app.py line 190). -/
def candSet (candidate_skills : List Str) : Finset Str :=
  (candidate_skills.map toLowerStr).toFinset

/-- A job's lowercased required-skill set (app.py lines 195–197). -/
def reqSet (job : JobRecord) : Finset Str :=
  (job.required_skills.map toLowerStr).toFinset

/-- The loop body of `compute_matches` (app.py lines 193–203) for one job:
skip the job when `jobId` is falsy (absent or empty) or its required-skill
set is empty; otherwise score it and keep it only when the score is
strictly positive. -/
def scoreJob (cset : Finset Str) (job : JobRecord) : Option (Str × ℚ) :=
  match job.jobId with
  | none => none
  | some jid =>
    if jid.isEmpty then none
    else if reqSet job = ∅ then none
    else
      let score := jaccard_similarity cset (reqSet job)
      if 0 < score then some (jid, score) else none

/-- The unsorted `results` list of `compute_matches` (app.py lines 191–203),
in job-scan order. -/
def scoredJobs (candidate_skills : List Str) (jobs : List JobRecord) :
    List (Str × ℚ) :=
  jobs.filterMap (scoreJob (candSet candidate_skills))

/-- Model of `round(x, 3)`: round to 3 decimal places (nearest-integer model of the
Python builtin on exact rationals). -/
def round3 (q : ℚ) : ℚ := ((round (q * 1000) : ℤ) : ℚ) / 1000

/-- The comparison used to model `results.sort(key=lambda x: x[1],
reverse=True)`: descending by score.  `List.insertionSort` with this
relation is the stable descending sort, as Python's stable `list.sort`. -/
def scoreGE (p q : Str × ℚ) : Prop := q.2 ≤ p.2

instance : DecidableRel scoreGE := fun p q => inferInstanceAs (Decidable (q.2 ≤ p.2))

instance : IsTotal (Str × ℚ) scoreGE := ⟨fun p q => le_total q.2 p.2⟩

instance : IsTrans (Str × ℚ) scoreGE :=
  ⟨fun _ _ _ h1 h2 => le_trans h2 h1⟩

/-- Source function `compute_matches` (app.py lines 184–208): score all jobs, sort stably
descending by score, keep the first 10, round each score to 3 decimals. -/
def compute_matches (candidate_skills : List Str) (jobs : List JobRecord) :
    List (Str × ℚ) :=
  let results := scoredJobs candidate_skills jobs
  let top := (results.insertionSort scoreGE).take 10
  top.map fun p => (p.1, round3 p.2)

/-! ### Ingestion orchestrator (app.py lines 53–94, per-record handling of
lines 69–75). -/

/-- A decoded queue-message body `{"bucket": ..., "key": ...}`; a field is
`none` when absent. -/
structure QueueMessage where
  bucket : Option Str
  key : Option Str
deriving DecidableEq

/-- The bucket/key resolution and skip test of `lambda_handler`
(app.py lines 69–75): `bucket = body.get("bucket") or RESUME_BUCKET_NAME`,
`key = body.get("key")`, and `continue` (modelled as `none`) when either
is falsy. -/
def resolve_record (defaultBucket : Str) (msg : QueueMessage) :
    Option (Str × Str) :=
  let bucket :=
    match msg.bucket with
    | none => defaultBucket
    | some b => if b.isEmpty then defaultBucket else b
  match msg.key with
  | none => none
  | some k => if bucket.isEmpty || k.isEmpty then none else some (bucket, k)

/-- The record loop of `lambda_handler` (app.py line 69): each message is
resolved independently, skipped messages contribute nothing, and the
remaining messages are processed in order. -/
def processBatch (defaultBucket : Str) (msgs : List QueueMessage) :
    List (Str × Str) :=
  msgs.filterMap (resolve_record defaultBucket)

/-! ### API layer (`src/backend/src/api/app.py`). -/

/-- A decoded `POST /jobs` request body; a field is `none` when absent. -/
structure ApiJobBody where
  title : Option Str
  description : Option Str
  required_skills : Option (List Str)
deriving DecidableEq

/-- The empty JSON object `{}`. -/
def emptyBody : ApiJobBody := ⟨none, none, none⟩

/-- Outcome of `json.loads` (an external collaborator): a decoded object,
or a decode error (`json.JSONDecodeError`). -/
inductive DecodeOutcome where
  | ok (b : ApiJobBody)
  | err
deriving DecidableEq

/-- Source function `_parse_body` (api/app.py lines 150–156): an absent or empty body, or
a body the decoder rejects, is treated as the empty object; the decoder
(`json.loads`) is passed in as an opaque function. -/
def parse_body (body_str : Option Str) (decode : Str → DecodeOutcome) :
    ApiJobBody :=
  match body_str with
  | none => emptyBody
  | some s =>
    if s.isEmpty then emptyBody
    else
      match decode s with
      | .ok b => b
      | .err => emptyBody

/-- A JSON API response, reduced to status code and message (the `201`
branch of `create_job` returns the created item; only its status matters
to the claims, so its message is modelled as empty). -/
structure ApiResponse where
  status : Nat
  message : Str
deriving DecidableEq

/-- Source function `create_job` (api/app.py lines 78–94): `400` with "title is required"
when `body.get("title")` is falsy, else `201`. -/
def create_job (body : ApiJobBody) : ApiResponse :=
  match body.title with
  | none => ⟨400, "title is required".toList⟩
  | some t =>
    if t.isEmpty then ⟨400, "title is required".toList⟩
    else ⟨201, []⟩

/-! ### Helper lemmas -/

theorem parse_name_eq_headD (text : Str) :
    (parse_candidate_profile text).name = (nonBlankLines text).headD "Unknown".toList := rfl

theorem emailScan_eq_none_iff_no_match (cs : Str) :
    emailScan cs = none ↔ ∀ i, matchEmailAt (cs.drop i) = none := by
  induction cs with
  | nil =>
    simp only [emailScan, List.drop_nil, true_iff]
    intro i
    rfl
  | cons c t ih =>
    cases hm : matchEmailAt (c :: t) with
    | some n =>
      simp only [emailScan, hm]
      constructor
      · intro h; exact absurd h (by simp)
      · intro h; have := h 0; rw [List.drop_zero] at this; rw [hm] at this; exact absurd this (by simp)
    | none =>
      simp only [emailScan, hm]
      constructor
      · intro h i
        cases i with
        | zero => exact hm
        | succ j => rw [List.drop_succ_cons]; exact (ih.mp h) j
      · intro h
        exact ih.mpr fun j => by have := h (j + 1); rwa [List.drop_succ_cons] at this

theorem emailScan_some_first_match (cs : Str) (m : Str) (h : emailScan cs = some m) :
    ∃ i n, matchEmailAt (cs.drop i) = some n ∧ m = (cs.drop i).take n ∧
      ∀ j, j < i → matchEmailAt (cs.drop j) = none := by
  induction cs with
  | nil => simp [emailScan] at h
  | cons c t ih =>
    cases hm : matchEmailAt (c :: t) with
    | some n =>
      simp only [emailScan, hm, Option.some.injEq] at h
      exact ⟨0, n, hm, h.symm, fun j hj => absurd hj (Nat.not_lt_zero j)⟩
    | none =>
      simp only [emailScan, hm] at h
      obtain ⟨i, n, h1, h2, h3⟩ := ih h
      refine ⟨i + 1, n, ?_, ?_, ?_⟩
      · rwa [List.drop_succ_cons]
      · rwa [List.drop_succ_cons]
      · intro j hj
        cases j with
        | zero => exact hm
        | succ j => rw [List.drop_succ_cons]; exact h3 j (Nat.lt_of_succ_lt_succ hj)

theorem le_foldl_max (qs : List ℚ) (q : ℚ) : q ≤ qs.foldl max q := by
  induction qs generalizing q with
  | nil => exact le_refl q
  | cons a as ih => exact le_trans (le_max_left q a) (ih (max q a))

theorem mem_le_foldl_max (qs : List ℚ) (q : ℚ) : ∀ x ∈ qs, x ≤ qs.foldl max q := by
  induction qs generalizing q with
  | nil => intro x hx; simp at hx
  | cons a as ih =>
    intro x hx
    rcases List.mem_cons.mp hx with rfl | hx
    · exact le_trans (le_max_right q x) (le_foldl_max as (max q x))
    · exact ih (max q a) x hx

theorem foldl_max_mem (qs : List ℚ) (q : ℚ) : qs.foldl max q ∈ q :: qs := by
  induction qs generalizing q with
  | nil => simp
  | cons a as ih =>
    have h := ih (max q a)
    rcases List.mem_cons.mp h with he | hm
    · rcases max_choice q a with hq | ha
      · exact List.mem_cons.mpr (Or.inl (by rw [List.foldl_cons, he, hq]))
      · refine List.mem_cons.mpr (Or.inr (List.mem_cons.mpr (Or.inl ?_)))
        rw [List.foldl_cons, he, ha]
    · exact List.mem_cons.mpr (Or.inr (List.mem_cons.mpr (Or.inr (by rw [List.foldl_cons]; exact hm))))

theorem skill_keywords_nodup : SKILL_KEYWORDS.Nodup := by decide

/-! ### Claims -/

/-- Claim C2 counterexample. The claim that `name` is "Unknown" iff the text has
no non-blank line fails at the text `"Unknown"`: its only line is
non-blank, yet the parsed name is the string "Unknown". -/
theorem parse_name_iff_counterexample :
    ¬ (((parse_candidate_profile "Unknown".toList).name = "Unknown".toList) ↔
        nonBlankLines "Unknown".toList = []) := by decide

/-- Claim C2 (amended). For every text, the parsed `name` is the first
non-blank trimmed line when one exists, and the placeholder "Unknown"
otherwise; consequently `name` equals "Unknown" iff the text has no
non-blank line or its first non-blank trimmed line is itself the string
"Unknown". -/
theorem parse_name_spec (text : Str) :
    ((parse_candidate_profile text).name = "Unknown".toList ↔
      (nonBlankLines text = [] ∨ (nonBlankLines text).head? = some "Unknown".toList))
    ∧ ∀ l ls, nonBlankLines text = l :: ls → (parse_candidate_profile text).name = l := by
  constructor
  · rw [parse_name_eq_headD]
    cases h : nonBlankLines text with
    | nil => simp
    | cons l ls => simp
  · intro l ls h
    rw [parse_name_eq_headD, h]
    rfl

/-- Claim C2 witness. At the text `"Jane"`, whose first non-blank trimmed
line is `"Jane"`, the parsed name is `"Jane"`. -/
theorem parse_name_spec_witness :
    (parse_candidate_profile "Jane".toList).name = "Jane".toList :=
  (parse_name_spec "Jane".toList).2 "Jane".toList [] (by decide)

/-- Claim C4. `parse_candidate_profile` is total (a Lean function), and absent
data degrades to the documented defaults: placeholder name when there is
no non-blank line, empty email when the email pattern matches nowhere,
zero experience when the years pattern matches nowhere, and empty skill
and title lists when no vocabulary term or title line occurs. -/
theorem parse_defaults (text : Str) :
    (nonBlankLines text = [] → (parse_candidate_profile text).name = "Unknown".toList)
    ∧ ((∀ i, matchEmailAt (text.drop i) = none) → (parse_candidate_profile text).email = [])
    ∧ (yearMatches (toLowerStr text) = [] →
        (parse_candidate_profile text).total_experience_years = 0)
    ∧ ((∀ k ∈ SKILL_KEYWORDS, containsSub (toLowerStr text) k = false) →
        (parse_candidate_profile text).skills = [])
    ∧ ((∀ line ∈ splitLines (toLowerStr text),
          (title_keywords.any fun w => containsSub line w) = false) →
        (parse_candidate_profile text).titles = []) := by
  refine ⟨fun h => ?_, fun h => ?_, fun h => ?_, fun h => ?_, fun h => ?_⟩
  · rw [parse_name_eq_headD, h]; rfl
  · have hs : emailScan text = none := (emailScan_eq_none_iff_no_match text).mpr h
    show (emailScan text).getD [] = []
    rw [hs]; rfl
  · show extract_experience_years (toLowerStr text) = 0
    rw [extract_experience_years, h]
  · show (extract_skills (toLowerStr text)).insertionSort (· ≤ ·) = []
    have : extract_skills (toLowerStr text) = [] :=
      List.filter_eq_nil_iff.mpr fun k hk => by simp [h k hk]
    rw [this]; rfl
  · show (extract_titles (toLowerStr text)).insertionSort (· ≤ ·) = []
    have : extract_titles (toLowerStr text) = [] := by
      rw [extract_titles]
      have : (splitLines (toLowerStr text)).filter
          (fun line => title_keywords.any fun word => containsSub line word) = [] :=
        List.filter_eq_nil_iff.mpr fun line hl => by simp [h line hl]
      rw [this]; rfl
    rw [this]; rfl

/-- Claim C4 witness. On the empty text every field takes its default. -/
theorem parse_defaults_witness :
    (parse_candidate_profile []).name = "Unknown".toList
    ∧ (parse_candidate_profile []).email = []
    ∧ (parse_candidate_profile []).total_experience_years = 0
    ∧ (parse_candidate_profile []).skills = []
    ∧ (parse_candidate_profile []).titles = [] := by
  obtain ⟨h1, h2, h3, h4, h5⟩ := parse_defaults []
  exact ⟨h1 (by decide), h2 (fun i => by rw [List.drop_nil]; rfl),
    h3 (by decide), h4 (by decide), h5 (by decide)⟩

/-- Claim C9. A queued message with no `bucket` field is processed with the
configured default bucket (when the default is configured and a
non-empty key is present), and a message with no `key` field is skipped
silently: removing it from a batch leaves the processed batch unchanged,
and the remaining messages are still processed. -/
theorem ingest_message_resolution (d : Str) (m : QueueMessage) (k : Str)
    (pre post : List QueueMessage) :
    (m.bucket = none → m.key = some k → k.isEmpty = false → d.isEmpty = false →
      resolve_record d m = some (d, k))
    ∧ (m.key = none →
      processBatch d (pre ++ m :: post) = processBatch d pre ++ processBatch d post) := by
  constructor
  · intro hb hk hke hde
    simp [resolve_record, hb, hk, hke, hde]
  · intro hk
    have hnone : resolve_record d m = none := by
      rw [resolve_record, hk]
    simp [processBatch, List.filterMap_append, List.filterMap_cons, hnone]

/-- Claim C9 witness. A bucketless message resolves to the default bucket,
and dropping a keyless message from a batch does not change the result. -/
theorem ingest_message_resolution_witness :
    resolve_record "b".toList ⟨none, some ['k']⟩ = some ("b".toList, ['k'])
    ∧ processBatch "b".toList
        ([⟨some ['c'], some ['x']⟩] ++ (⟨some ['c'], none⟩ : QueueMessage) :: [⟨none, some ['y']⟩])
      = processBatch "b".toList [⟨some ['c'], some ['x']⟩]
        ++ processBatch "b".toList [⟨none, some ['y']⟩] :=
  ⟨(ingest_message_resolution "b".toList ⟨none, some ['k']⟩ ['k'] [] []).1 rfl rfl rfl rfl,
   (ingest_message_resolution "b".toList ⟨some ['c'], none⟩ ['k']
      [⟨some ['c'], some ['x']⟩] [⟨none, some ['y']⟩]).2 rfl⟩

/-- Claim C10. A `POST /jobs` request whose body is absent, empty, or
rejected by the JSON decoder is treated as the empty object, and
`create_job` then returns status 400 with "title is required" (a total
function: no uncaught exception). -/
theorem post_jobs_bad_body (decode : Str → DecodeOutcome) (s : Str) :
    create_job (parse_body none decode) = ⟨400, "title is required".toList⟩
    ∧ create_job (parse_body (some []) decode) = ⟨400, "title is required".toList⟩
    ∧ (decode s = .err →
        create_job (parse_body (some s) decode) = ⟨400, "title is required".toList⟩) := by
  refine ⟨rfl, rfl, fun h => ?_⟩
  by_cases hs : s.isEmpty
  · simp [parse_body, hs, create_job, emptyBody]
  · simp [parse_body, hs, h, create_job, emptyBody]

/-- Claim C10 witness. With a decoder that rejects everything, a request
body that fails to decode yields the 400 "title is required" response. -/
theorem post_jobs_bad_body_witness :
    create_job (parse_body (some ['x']) (fun _ => DecodeOutcome.err))
      = ⟨400, "title is required".toList⟩ :=
  (post_jobs_bad_body (fun _ => DecodeOutcome.err) ['x']).2.2 rfl

/-- Claim C5. `jaccard_similarity` returns `|a ∩ b| / |a ∪ b|`; when either
set is non-empty the union's cardinality is non-zero (so the guarded
division-by-zero branch is unreachable), and when both sets are empty it
returns `0`. -/
theorem jaccard_spec (a b : Finset Str) :
    ((a.Nonempty ∨ b.Nonempty) →
      (a ∪ b).card ≠ 0 ∧
      jaccard_similarity a b = ((a ∩ b).card : ℚ) / ((a ∪ b).card : ℚ))
    ∧ (a = ∅ → b = ∅ → jaccard_similarity a b = 0) := by
  constructor
  · intro h
    have hne : ¬(a = ∅ ∧ b = ∅) := by
      rintro ⟨ha, hb⟩
      rcases h with h | h
      · rw [ha] at h; exact Finset.not_nonempty_empty h
      · rw [hb] at h; exact Finset.not_nonempty_empty h
    have hu : (a ∪ b).card ≠ 0 := by
      rcases h with ⟨x, hx⟩ | ⟨x, hx⟩
      · exact Finset.card_ne_zero_of_mem (Finset.mem_union_left _ hx)
      · exact Finset.card_ne_zero_of_mem (Finset.mem_union_right _ hx)
    refine ⟨hu, ?_⟩
    rw [jaccard_similarity, if_neg hne]
    simp only [hu, ne_eq, not_false_eq_true, if_true]
  · rintro rfl rfl
    rw [jaccard_similarity, if_pos ⟨rfl, rfl⟩]

/-- Claim C5 witness. With `a = {"x"}` and `b = ∅` the union is non-empty and
the quotient formula applies; with both sets empty the result is `0`. -/
theorem jaccard_spec_witness :
    (({['x']} : Finset Str) ∪ ∅).card ≠ 0
    ∧ jaccard_similarity {['x']} ∅
        = ((({['x']} : Finset Str) ∩ ∅).card : ℚ) / ((({['x']} : Finset Str) ∪ ∅).card : ℚ)
    ∧ jaccard_similarity (∅ : Finset Str) ∅ = 0 := by
  have h := (jaccard_spec {['x']} ∅).1 (Or.inl ⟨['x'], Finset.mem_singleton_self _⟩)
  exact ⟨h.1, h.2, (jaccard_spec ∅ ∅).2 rfl rfl⟩

/-- Claim C6. `extract_experience_years` returns the maximum of all numbers
captured by the years pattern (an upper bound of the matches that is
itself a match), or `0` when there is no match; on
`"3 years... 5+ years"` it returns `5`. -/
theorem experience_years_spec (cs : Str) :
    (yearMatches cs = [] → extract_experience_years cs = 0)
    ∧ (∀ q ∈ yearMatches cs, q ≤ extract_experience_years cs)
    ∧ (yearMatches cs ≠ [] → extract_experience_years cs ∈ yearMatches cs)
    ∧ extract_experience_years "3 years... 5+ years".toList = 5 := by
  refine ⟨fun h => by rw [extract_experience_years, h], ?_, ?_, by decide⟩
  · intro q hq
    rw [extract_experience_years]
    cases hm : yearMatches cs with
    | nil => rw [hm] at hq; simp at hq
    | cons a as =>
      rw [hm] at hq
      rcases List.mem_cons.mp hq with rfl | hq
      · exact le_foldl_max as q
      · exact mem_le_foldl_max as a q hq
  · intro h
    rw [extract_experience_years]
    cases hm : yearMatches cs with
    | nil => exact absurd hm h
    | cons a as => exact foldl_max_mem as a

/-- Claim C6 witness. The empty text has no match and yields `0`; on
`"1 year"` the result is one of the captured matches. -/
theorem experience_years_spec_witness :
    extract_experience_years [] = 0
    ∧ extract_experience_years "1 year".toList ∈ yearMatches "1 year".toList :=
  ⟨(experience_years_spec []).1 rfl,
   (experience_years_spec "1 year".toList).2.2.1 (by decide)⟩

/-- Claim C7. `extract_email` searches the original-case text for the email
pattern: when the scan fails there is no match at any start position and
the empty string is returned; when it succeeds the result is the match at
the leftmost matching start position; on
`"contact: a.b+c@sub.example.co"` it returns exactly
`"a.b+c@sub.example.co"`. -/
theorem email_spec (cs : Str) :
    (emailScan cs = none → extract_email cs = [] ∧ ∀ i, matchEmailAt (cs.drop i) = none)
    ∧ (∀ m, emailScan cs = some m →
        extract_email cs = m ∧
        ∃ i n, matchEmailAt (cs.drop i) = some n ∧ m = (cs.drop i).take n ∧
          ∀ j, j < i → matchEmailAt (cs.drop j) = none)
    ∧ extract_email "contact: a.b+c@sub.example.co".toList
        = "a.b+c@sub.example.co".toList := by
  refine ⟨fun h => ⟨?_, (emailScan_eq_none_iff_no_match cs).mp h⟩,
    fun m h => ⟨?_, emailScan_some_first_match cs m h⟩, by decide⟩
  · show (emailScan cs).getD [] = []
    rw [h]; rfl
  · show (emailScan cs).getD [] = m
    rw [h]; rfl

/-- Claim C7 witness. `"a@b.co"` is its own first match; a text with no
`'@'` yields the empty string. -/
theorem email_spec_witness :
    extract_email "a@b.co".toList = "a@b.co".toList ∧ extract_email ['z'] = [] :=
  ⟨((email_spec "a@b.co".toList).2.1 "a@b.co".toList (by decide)).1,
   ((email_spec ['z']).1 (by decide)).1⟩

/-- Claim C8. The `skills` field is sorted ascending, duplicate-free, and
contains exactly the vocabulary terms occurring as substrings of the
lowercased text (hence independent of case and multiplicity); a text
containing "Python" and "python" twice yields `["python"]`. -/
theorem skills_spec (text : Str) :
    List.Sorted (· ≤ ·) (parse_candidate_profile text).skills
    ∧ (parse_candidate_profile text).skills.Nodup
    ∧ (∀ s, s ∈ (parse_candidate_profile text).skills ↔
        s ∈ SKILL_KEYWORDS ∧ containsSub (toLowerStr text) s = true)
    ∧ (parse_candidate_profile "Python python Python python".toList).skills
        = ["python".toList] := by
  have hfield : (parse_candidate_profile text).skills
      = (extract_skills (toLowerStr text)).insertionSort (· ≤ ·) := rfl
  refine ⟨?_, ?_, ?_, by decide⟩
  · rw [hfield]; exact List.sorted_insertionSort _ _
  · rw [hfield]
    exact (List.perm_insertionSort _ _).nodup_iff.mpr
      (skill_keywords_nodup.filter _)
  · intro s
    rw [hfield, List.mem_insertionSort, extract_skills, List.mem_filter]

theorem filter_orderedInsert_score (s : ℚ) (a : Str × ℚ) (l : List (Str × ℚ)) :
    (List.orderedInsert scoreGE a l).filter (fun p => decide (p.2 = s))
      = if a.2 = s then a :: l.filter (fun p => decide (p.2 = s))
        else l.filter (fun p => decide (p.2 = s)) := by
  induction l with
  | nil =>
    rw [List.orderedInsert]
    by_cases ha : a.2 = s <;> simp [ha]
  | cons b t ih =>
    rw [List.orderedInsert]
    by_cases hr : scoreGE a b
    · rw [if_pos hr]
      by_cases ha : a.2 = s <;> simp [ha]
    · rw [if_neg hr]
      have hab : a.2 < b.2 := lt_of_not_le hr
      by_cases ha : a.2 = s
      · have hb : ¬ b.2 = s := fun hbs => absurd (ha.trans hbs.symm) (ne_of_lt hab)
        rw [if_pos ha]
        simp only [List.filter_cons, hb, decide_eq_true_eq, if_false, decide_False]
        rw [ih, if_pos ha]
        simp [hb]
      · rw [if_neg ha]
        simp only [List.filter_cons]
        rw [ih, if_neg ha]

theorem filter_insertionSort_score (s : ℚ) (l : List (Str × ℚ)) :
    (l.insertionSort scoreGE).filter (fun p => decide (p.2 = s))
      = l.filter (fun p => decide (p.2 = s)) := by
  induction l with
  | nil => rfl
  | cons a t ih =>
    rw [List.insertionSort, filter_orderedInsert_score, ih, List.filter_cons]
    by_cases ha : a.2 = s <;> simp [ha]

/-- Claim C1. `compute_matches` equals the first 10 entries of a stable
descending sort of the scored jobs, with each score rounded to 3 decimal
places: the sort is a permutation of the scored jobs, pairwise descending
by score, and for each score value preserves the original job-scan order
of the entries carrying it; the output has at most 10 entries. -/
theorem matches_sorted_stable_top10 (cand : List Str) (jobs : List JobRecord) :
    ∃ sorted : List (Str × ℚ),
      sorted.Perm (scoredJobs cand jobs)
      ∧ List.Sorted scoreGE sorted
      ∧ (∀ s : ℚ, sorted.filter (fun p => decide (p.2 = s))
          = (scoredJobs cand jobs).filter (fun p => decide (p.2 = s)))
      ∧ compute_matches cand jobs = (sorted.take 10).map (fun p => (p.1, round3 p.2))
      ∧ (compute_matches cand jobs).length ≤ 10 := by
  refine ⟨(scoredJobs cand jobs).insertionSort scoreGE,
    List.perm_insertionSort _ _, List.sorted_insertionSort _ _,
    fun s => filter_insertionSort_score s _, rfl, ?_⟩
  show ((((scoredJobs cand jobs).insertionSort scoreGE).take 10).map
      (fun p => (p.1, round3 p.2))).length ≤ 10
  rw [List.length_map]
  exact List.length_take_le 10 _

theorem round3_one : round3 1 = 1 := by
  rw [round3, one_mul, show ((1000 : ℚ)) = ((1000 : ℕ) : ℚ) by norm_num, round_natCast]
  norm_num

theorem round3_small : round3 (1 / 2001) = 0 := by
  rw [round3, show ((1 : ℚ) / 2001 * 1000) = 1000 / 2001 by norm_num]
  rw [show round ((1000 : ℚ) / 2001) = 0 from round_eq_zero_iff.mpr ⟨by norm_num, by norm_num⟩]
  norm_num

theorem scoreJob_skip (cset : Finset Str) (job : JobRecord)
    (h : job.jobId = none ∨ job.jobId = some [] ∨ reqSet job = ∅ ∨
      jaccard_similarity cset (reqSet job) = 0) :
    scoreJob cset job = none := by
  rcases h with h | h | h | h
  · simp [scoreJob, h]
  · simp [scoreJob, h]
  · rw [scoreJob]
    cases hid : job.jobId with
    | none => rfl
    | some jid => simp [h]
  · rw [scoreJob]
    cases hid : job.jobId with
    | none => rfl
    | some jid =>
      by_cases h1 : jid.isEmpty
      · simp [h1]
      · by_cases h2 : reqSet job = ∅
        · simp [h1, h2]
        · simp [h1, h2, h]

theorem scoredJobs_pos (cand : List Str) (jobs : List JobRecord) :
    ∀ p ∈ scoredJobs cand jobs, 0 < p.2 := by
  intro p hp
  obtain ⟨job, hj, hf⟩ := List.mem_filterMap.mp hp
  rw [scoreJob] at hf
  cases hid : job.jobId with
  | none => rw [hid] at hf; exact absurd hf (by simp)
  | some jid =>
    rw [hid] at hf
    dsimp only at hf
    by_cases h1 : jid.isEmpty
    · rw [if_pos h1] at hf; exact absurd hf (by simp)
    · rw [if_neg h1] at hf
      by_cases h2 : reqSet job = ∅
      · rw [if_pos h2] at hf; exact absurd hf (by simp)
      · rw [if_neg h2] at hf
        by_cases h3 : 0 < jaccard_similarity (candSet cand) (reqSet job)
        · rw [if_pos h3] at hf
          obtain ⟨-, h5⟩ := Prod.mk.injEq .. ▸ Option.some.injEq .. ▸ hf
          rw [← h5]
          exact h3
        · rw [if_neg h3] at hf; exact absurd hf (by simp)

/-- Claim C3 (amended). Within one `compute_matches` call: a job lacking a
`jobId` (absent or empty) or whose lowercased required-skill set is empty
is skipped entirely, and a job whose Jaccard score is 0 is excluded —
removing such a job from the job list leaves the output unchanged.  Every
output entry stems from a strictly positive pre-rounding score (its
displayed score is that score rounded to 3 decimals, which can itself be
0 when the raw score is below 1/2000). -/
theorem matches_skip_and_positive (cand : List Str) (pre post : List JobRecord)
    (job : JobRecord) :
    ((job.jobId = none ∨ job.jobId = some [] ∨ reqSet job = ∅ ∨
        jaccard_similarity (candSet cand) (reqSet job) = 0) →
      compute_matches cand (pre ++ job :: post) = compute_matches cand (pre ++ post))
    ∧ ∀ e ∈ compute_matches cand (pre ++ job :: post),
        ∃ q : ℚ, 0 < q ∧ e.2 = round3 q := by
  constructor
  · intro h
    have hnone := scoreJob_skip (candSet cand) job h
    have hscored : scoredJobs cand (pre ++ job :: post) = scoredJobs cand (pre ++ post) := by
      simp [scoredJobs, List.filterMap_append, List.filterMap_cons, hnone]
    simp only [compute_matches, hscored]
  · intro e he
    simp only [compute_matches] at he
    obtain ⟨p, hp, rfl⟩ := List.mem_map.mp he
    have hp2 : p ∈ scoredJobs cand (pre ++ job :: post) :=
      (List.mem_insertionSort scoreGE).mp (List.take_subset 10 _ hp)
    exact ⟨p.2, scoredJobs_pos _ _ p hp2, rfl⟩

theorem compute_matches_single :
    compute_matches [['a']] [⟨some ['j'], [['a']]⟩] = [(['j'], 1)] := by
  have h1 : candSet [['a']] = {['a']} := by decide
  have h2 : reqSet ⟨some ['j'], [['a']]⟩ = {['a']} := by decide
  have hj : jaccard_similarity {['a']} {['a']} = 1 := by
    simp [jaccard_similarity]
  have hs : scoreJob (candSet [['a']]) ⟨some ['j'], [['a']]⟩ = some (['j'], 1) := by
    simp [scoreJob, h1, h2, hj]
  simp [compute_matches, scoredJobs, hs, List.insertionSort, List.orderedInsert, round3_one]

/-- Claim C3 witness. A job with no `jobId` is skipped (same output with and
without it), and the sole entry of a perfect-match output carries a
positively-scored rounding preimage. -/
theorem matches_skip_and_positive_witness :
    compute_matches [['a']] ([] ++ (⟨none, [['b']]⟩ : JobRecord) :: [])
      = compute_matches [['a']] ([] ++ [])
    ∧ ∃ q : ℚ, 0 < q ∧ (1 : ℚ) = round3 q := by
  constructor
  · exact (matches_skip_and_positive [['a']] [] [] ⟨none, [['b']]⟩).1 (Or.inl rfl)
  · have hmem : ((['j'], (1 : ℚ)) : Str × ℚ)
        ∈ compute_matches [['a']] ([] ++ (⟨some ['j'], [['a']]⟩ : JobRecord) :: []) := by
      rw [List.nil_append, compute_matches_single]
      exact List.mem_singleton_self _
    exact (matches_skip_and_positive [['a']] [] [] ⟨some ['j'], [['a']]⟩).2 (['j'], 1) hmem

/-- One skill string per length: `'a'`, `"aa"`, `"aaa"`, ... -/
def bigSkill (n : ℕ) : Str := List.replicate (n + 1) 'a'

/-- The list of 2001 distinct skill strings. -/
def bigSkills : List Str := (List.range 2001).map bigSkill

/-- A job with 2001 distinct required skills, one of which (`"a"`) the
candidate holds: its Jaccard score against candidate skills `{"a"}` is
`1/2001`, strictly positive but rounding to `0.000`. -/
def bigJob : JobRecord := ⟨some ['j'], bigSkills⟩

theorem toLowerStr_bigSkill (n : ℕ) : toLowerStr (bigSkill n) = bigSkill n := by
  rw [toLowerStr, bigSkill, List.map_replicate,
    show Char.toLower 'a' = 'a' by decide]

theorem bigSkill_inj : Function.Injective bigSkill := by
  intro m n h
  have := congrArg List.length h
  simpa [bigSkill] using this

theorem bigSkills_nodup : bigSkills.Nodup := by
  rw [bigSkills]
  exact (List.nodup_range 2001).map bigSkill_inj

set_option maxRecDepth 8000 in
theorem bigJob_skills : bigJob.required_skills = bigSkills := rfl

theorem map_toLowerStr_bigSkills : List.map toLowerStr bigSkills = bigSkills := by
  rw [bigSkills, List.map_map]
  exact List.map_congr_left fun n _ => toLowerStr_bigSkill n

theorem reqSet_bigJob : reqSet bigJob = bigSkills.toFinset := by
  rw [reqSet, bigJob_skills, map_toLowerStr_bigSkills]

theorem card_reqSet_bigJob : (reqSet bigJob).card = 2001 := by
  rw [reqSet_bigJob, List.toFinset_card_of_nodup bigSkills_nodup, bigSkills,
    List.length_map, List.length_range]

theorem mem_reqSet_bigJob : (['a'] : Str) ∈ reqSet bigJob := by
  rw [reqSet_bigJob, List.mem_toFinset, bigSkills]
  exact List.mem_map.mpr ⟨0, by simp, rfl⟩

theorem jaccard_bigJob :
    jaccard_similarity (candSet [['a']]) (reqSet bigJob) = 1 / 2001 := by
  have h1 : candSet [['a']] = {['a']} := by decide
  rw [h1]
  have hne : ¬(({['a']} : Finset Str) = ∅ ∧ reqSet bigJob = ∅) := by
    rintro ⟨h, -⟩
    exact Finset.singleton_ne_empty _ h
  have hi : ({['a']} : Finset Str) ∩ reqSet bigJob = {['a']} :=
    Finset.singleton_inter_of_mem mem_reqSet_bigJob
  have hu : ({['a']} : Finset Str) ∪ reqSet bigJob = reqSet bigJob :=
    Finset.union_eq_right.mpr (Finset.singleton_subset_iff.mpr mem_reqSet_bigJob)
  simp only [jaccard_similarity, if_neg hne, hi, hu, Finset.card_singleton,
    card_reqSet_bigJob]
  norm_num

theorem scoredJobs_bigJob : scoredJobs [['a']] [bigJob] = [(['j'], 1 / 2001)] := by
  have hreqne : ¬ reqSet bigJob = ∅ := by
    intro h
    have h2 := card_reqSet_bigJob
    rw [h] at h2
    simp at h2
  have hs : scoreJob (candSet [['a']]) bigJob = some (['j'], 1 / 2001) := by
    rw [scoreJob]
    show (match bigJob.jobId with
      | none => none
      | some jid =>
        if jid.isEmpty then none
        else if reqSet bigJob = ∅ then none
        else
          let score := jaccard_similarity (candSet [['a']]) (reqSet bigJob)
          if 0 < score then some (jid, score) else none) = some (['j'], 1 / 2001)
    rw [show bigJob.jobId = some ['j'] from rfl]
    simp only [jaccard_bigJob, if_neg hreqne]
    norm_num
  rw [scoredJobs, List.filterMap_cons, hs, List.filterMap_nil]

/-- Claim C3 counterexample. With candidate skills `["a"]` and the single
2001-skill job `bigJob`, the raw Jaccard score is `1/2001 > 0`, so the job
is kept, but its rounded score is `0`: the output contains an entry whose
score is not strictly positive, refuting the claim's final clause. -/
theorem matches_positive_counterexample :
    ¬ ∀ e ∈ compute_matches [['a']] [bigJob], 0 < e.2 := by
  intro h
  have hcm : compute_matches [['a']] [bigJob] = [(['j'], round3 (1 / 2001))] := by
    simp only [compute_matches, scoredJobs_bigJob]
    rfl
  rw [round3_small] at hcm
  have h0 := h (['j'], 0) (by rw [hcm]; exact List.mem_singleton_self _)
  exact lt_irrefl 0 h0

end ResumeParser
